import Mathlib

/-!
Shallow embedding of `src/driver/ctu_can_fd_frame.h` from the CTU CAN FD
IP core repository.  The header declares:

* `enum ctu_can_fd_can_frame_format` — byte offsets of the words of a CAN
  frame-format memory region;
* seven overlay unions, each a `uint32_t u32` view together with a bitfield
  struct view whose field order is chosen by `__LITTLE_ENDIAN_BITFIELD`;
* six two-valued flag enumerations for the frame-form word.

A bitfield layout is embedded as a list of `(field name, bit width)` pairs in
declaration order.  Under `__LITTLE_ENDIAN_BITFIELD` the C compiler allocates
successive fields from bit 0 upward (`decodeLE`); under the big-endian
variant it allocates from the most significant bit downward (`decodeBE`).
-/

/- CAN_Frame_format memory map (enum ctu_can_fd_can_frame_format). -/

def CTU_CAN_FD_FRAME_FORM_W : Nat := 0x0

def CTU_CAN_FD_IDENTIFIER_W : Nat := 0x4

def CTU_CAN_FD_TIMESTAMP_L_W : Nat := 0x8

def CTU_CAN_FD_TIMESTAMP_U_W : Nat := 0xc

def CTU_CAN_FD_DATA_1_4_W : Nat := 0x10

def CTU_CAN_FD_DATA_5_8_W : Nat := 0x14

def CTU_CAN_FD_DATA_61_64_W : Nat := 0x4c

def ctu_can_fd_can_frame_format : List (String × Nat) :=
  [("CTU_CAN_FD_FRAME_FORM_W", CTU_CAN_FD_FRAME_FORM_W),
   ("CTU_CAN_FD_IDENTIFIER_W", CTU_CAN_FD_IDENTIFIER_W),
   ("CTU_CAN_FD_TIMESTAMP_L_W", CTU_CAN_FD_TIMESTAMP_L_W),
   ("CTU_CAN_FD_TIMESTAMP_U_W", CTU_CAN_FD_TIMESTAMP_U_W),
   ("CTU_CAN_FD_DATA_1_4_W", CTU_CAN_FD_DATA_1_4_W),
   ("CTU_CAN_FD_DATA_5_8_W", CTU_CAN_FD_DATA_5_8_W),
   ("CTU_CAN_FD_DATA_61_64_W", CTU_CAN_FD_DATA_61_64_W)]

/- Bitfield layouts: `(field name, bit width)` in declaration order.
Each union has a layout for the `__LITTLE_ENDIAN_BITFIELD` branch and one
for the `#else` (big-endian) branch; the two timestamp unions declare a
single unconditional field, so both variants share one list. -/

def ctu_can_fd_frame_form_w_le : List (String × Nat) :=
  [("dlc", 4), ("reserved_4", 1), ("rtr", 1), ("ide", 1), ("fdf", 1),
   ("tbf", 1), ("brs", 1), ("esi_rsv", 1), ("rwcnt", 5), ("reserved_31_16", 16)]

def ctu_can_fd_frame_form_w_be : List (String × Nat) :=
  [("reserved_31_16", 16), ("rwcnt", 5), ("esi_rsv", 1), ("brs", 1), ("tbf", 1),
   ("fdf", 1), ("ide", 1), ("rtr", 1), ("reserved_4", 1), ("dlc", 4)]

def ctu_can_fd_identifier_w_le : List (String × Nat) :=
  [("identifier_ext", 18), ("identifier_base", 11), ("reserved_31_29", 3)]

def ctu_can_fd_identifier_w_be : List (String × Nat) :=
  [("reserved_31_29", 3), ("identifier_base", 11), ("identifier_ext", 18)]

def ctu_can_fd_timestamp_l_w_fields : List (String × Nat) :=
  [("time_stamp_31_0", 32)]

def ctu_can_fd_timestamp_u_w_fields : List (String × Nat) :=
  [("timestamp_l_w", 32)]

def ctu_can_fd_data_1_4_w_le : List (String × Nat) :=
  [("data_1", 8), ("data_2", 8), ("data_3", 8), ("data_4", 8)]

def ctu_can_fd_data_1_4_w_be : List (String × Nat) :=
  [("data_4", 8), ("data_3", 8), ("data_2", 8), ("data_1", 8)]

def ctu_can_fd_data_5_8_w_le : List (String × Nat) :=
  [("data_5", 8), ("data_6", 8), ("data_7", 8), ("data_8", 8)]

def ctu_can_fd_data_5_8_w_be : List (String × Nat) :=
  [("data_8", 8), ("data_7", 8), ("data_6", 8), ("data_5", 8)]

def ctu_can_fd_data_61_64_w_le : List (String × Nat) :=
  [("data_61", 8), ("data_62", 8), ("data_63", 8), ("data_64", 8)]

def ctu_can_fd_data_61_64_w_be : List (String × Nat) :=
  [("data_64", 8), ("data_63", 8), ("data_62", 8), ("data_61", 8)]

/-- The little-endian-bitfield layouts of the seven overlay unions, in the
order of declaration in the header. -/
def overlayLayoutsLE : List (List (String × Nat)) :=
  [ctu_can_fd_frame_form_w_le, ctu_can_fd_identifier_w_le,
   ctu_can_fd_timestamp_l_w_fields, ctu_can_fd_timestamp_u_w_fields,
   ctu_can_fd_data_1_4_w_le, ctu_can_fd_data_5_8_w_le, ctu_can_fd_data_61_64_w_le]

/-- The big-endian-bitfield layouts of the seven overlay unions. -/
def overlayLayoutsBE : List (List (String × Nat)) :=
  [ctu_can_fd_frame_form_w_be, ctu_can_fd_identifier_w_be,
   ctu_can_fd_timestamp_l_w_fields, ctu_can_fd_timestamp_u_w_fields,
   ctu_can_fd_data_1_4_w_be, ctu_can_fd_data_5_8_w_be, ctu_can_fd_data_61_64_w_be]

/- Flag enumerations for the frame-form word. -/

def ctu_can_fd_frame_form_w_rtr : List (String × Nat) :=
  [("NO_RTR_FRAME", 0x0), ("RTR_FRAME", 0x1)]

def ctu_can_fd_frame_form_w_ide : List (String × Nat) :=
  [("BASE", 0x0), ("EXTENDED", 0x1)]

def ctu_can_fd_frame_form_w_fdf : List (String × Nat) :=
  [("NORMAL_CAN", 0x0), ("FD_CAN", 0x1)]

def ctu_can_fd_frame_form_w_tbf : List (String × Nat) :=
  [("NOT_TIME_BASED", 0x0), ("TIME_BASED", 0x1)]

def ctu_can_fd_frame_form_w_brs : List (String × Nat) :=
  [("BR_NO_SHIFT", 0x0), ("BR_SHIFT", 0x1)]

def ctu_can_fd_frame_form_w_esi_rsv : List (String × Nat) :=
  [("ESI_ERR_ACTIVE", 0x0), ("ESI_ERR_PASIVE", 0x1)]

/-- The six flag enumerations, paired with the name of the 1-bit field of the
frame-form word each one gives values for. -/
def flagEnums : List (String × List (String × Nat)) :=
  [("rtr", ctu_can_fd_frame_form_w_rtr), ("ide", ctu_can_fd_frame_form_w_ide),
   ("fdf", ctu_can_fd_frame_form_w_fdf), ("tbf", ctu_can_fd_frame_form_w_tbf),
   ("brs", ctu_can_fd_frame_form_w_brs), ("esi_rsv", ctu_can_fd_frame_form_w_esi_rsv)]

/- Bitfield semantics. -/

/-- Total declared bit width of a layout. -/
def widthSum (L : List (String × Nat)) : Nat := (L.map Prod.snd).sum

/-- Read a word through a bitfield layout when the compiler allocates
fields starting at bit 0 (`__LITTLE_ENDIAN_BITFIELD`): each entry is
`(name, width, value)`. -/
def decodeLE : List (String × Nat) → Nat → List (String × Nat × Nat)
  | [], _ => []
  | (n, w) :: rest, x => (n, w, x % 2 ^ w) :: decodeLE rest (x / 2 ^ w)

/-- Rebuild the raw word from decoded `(name, width, value)` entries,
first field at bit 0. -/
def encodeLE : List (String × Nat × Nat) → Nat
  | [] => 0
  | (_, w, v) :: rest => v % 2 ^ w + 2 ^ w * encodeLE rest

/-- Read a word through a bitfield layout when the compiler allocates
fields starting at the most significant bit (the `#else` branch): the first
declared field occupies the top bits. -/
def decodeBE : List (String × Nat) → Nat → List (String × Nat × Nat)
  | [], _ => []
  | (n, w) :: rest, x =>
      (n, w, x / 2 ^ widthSum rest % 2 ^ w) :: decodeBE rest (x % 2 ^ widthSum rest)

/-- Absolute bit positions of a layout under little-endian-bitfield
allocation: each entry is `(name, bit offset from LSB, width)`, with `acc`
the offset of the first field. -/
def posLE : List (String × Nat) → Nat → List (String × Nat × Nat)
  | [], _ => []
  | (n, w) :: rest, acc => (n, acc, w) :: posLE rest (acc + w)

/-- Extract the `w`-bit field at bit offset `off` from a raw word. -/
def getField (x off w : Nat) : Nat := x / 2 ^ off % 2 ^ w

/-- Store `v` into the `w`-bit field at bit offset `off` of raw word `x`,
truncating `v` to `w` bits, as a C bitfield assignment does. -/
def setField (x off w v : Nat) : Nat :=
  x % 2 ^ off + v % 2 ^ w * 2 ^ off + x / 2 ^ (off + w) * 2 ^ (off + w)

/- Generic lemmas about the bitfield semantics. -/

theorem widthSum_cons (n : String) (w : Nat) (rest : List (String × Nat)) :
    widthSum ((n, w) :: rest) = w + widthSum rest := by
  simp [widthSum]

theorem widthSum_append (A B : List (String × Nat)) :
    widthSum (A ++ B) = widthSum A + widthSum B := by
  simp [widthSum]

theorem encodeLE_decodeLE (L : List (String × Nat)) :
    ∀ x, encodeLE (decodeLE L x) = x % 2 ^ widthSum L := by
  induction L with
  | nil => intro x; simp [decodeLE, encodeLE, widthSum, Nat.mod_one]
  | cons f rest ih =>
    intro x
    obtain ⟨n, w⟩ := f
    rw [decodeLE, encodeLE, ih, widthSum_cons, pow_add, Nat.mod_mul,
      Nat.mod_mod_of_dvd _ dvd_rfl]

theorem decodeBE_append (n : String) (w : Nat) (M : List (String × Nat)) :
    ∀ x, decodeBE (M ++ [(n, w)]) x = decodeBE M (x / 2 ^ w) ++ [(n, w, x % 2 ^ w)] := by
  induction M with
  | nil =>
    intro x
    simp [decodeBE, widthSum, Nat.mod_one]
  | cons f M ih =>
    intro x
    obtain ⟨m, u⟩ := f
    have hws : widthSum (M ++ [(n, w)]) = widthSum M + w := by
      rw [widthSum_append, widthSum_cons]; simp [widthSum]
    have h2 : (2 : Nat) ^ (widthSum M + w) = 2 ^ w * 2 ^ widthSum M := by
      rw [pow_add, Nat.mul_comm]
    rw [List.cons_append, decodeBE, decodeBE, ih, hws, h2,
      Nat.mod_mul_right_div_self, Nat.mod_mod_of_dvd x (dvd_mul_right (2 ^ w) (2 ^ widthSum M)),
      ← Nat.div_div_eq_div_mul, List.cons_append]

theorem decodeBE_reverse (L : List (String × Nat)) :
    ∀ x, decodeBE L.reverse x = (decodeLE L x).reverse := by
  induction L with
  | nil => intro x; simp [decodeBE, decodeLE]
  | cons f L ih =>
    intro x
    obtain ⟨n, w⟩ := f
    rw [List.reverse_cons, decodeBE_append, ih, decodeLE, List.reverse_cons]

theorem setField_rearrange (x off w v : Nat) :
    setField x off w v
      = x % 2 ^ off + 2 ^ off * (v % 2 ^ w + 2 ^ w * (x / (2 ^ off * 2 ^ w))) := by
  unfold setField
  rw [pow_add]
  ring

theorem getField_setField_eq (x off w v : Nat) :
    getField (setField x off w v) off w = v % 2 ^ w := by
  have hA : 0 < 2 ^ off := Nat.pos_pow_of_pos _ (by norm_num)
  unfold getField
  rw [setField_rearrange, Nat.add_mul_div_left _ _ hA,
    Nat.div_eq_of_lt (Nat.mod_lt x hA), Nat.zero_add,
    Nat.add_mul_mod_self_left, Nat.mod_mod_of_dvd _ dvd_rfl]

theorem setField_mod_low (x off w v : Nat) :
    setField x off w v % 2 ^ off = x % 2 ^ off := by
  rw [setField_rearrange, Nat.add_mul_mod_self_left, Nat.mod_mod_of_dvd _ dvd_rfl]

theorem getField_mod (x off w k : Nat) (h : off + w ≤ k) :
    getField (x % 2 ^ k) off w = getField x off w := by
  unfold getField
  have hk : (2 : Nat) ^ k = 2 ^ off * 2 ^ (k - off) := by
    rw [← pow_add]; congr 1; omega
  rw [hk, Nat.mod_mul_right_div_self,
    Nat.mod_mod_of_dvd _ (pow_dvd_pow 2 (by omega : w ≤ k - off))]

theorem getField_setField_low (x off w v o2 w2 : Nat) (h : o2 + w2 ≤ off) :
    getField (setField x off w v) o2 w2 = getField x o2 w2 := by
  rw [← getField_mod (setField x off w v) o2 w2 off h, setField_mod_low,
    getField_mod x o2 w2 off h]

theorem setField_div_high (x off w v : Nat) :
    setField x off w v / 2 ^ (off + w) = x / 2 ^ (off + w) := by
  have hA : 0 < 2 ^ off := Nat.pos_pow_of_pos _ (by norm_num)
  have hB : 0 < 2 ^ w := Nat.pos_pow_of_pos _ (by norm_num)
  have hlow : x % 2 ^ off + v % 2 ^ w * 2 ^ off < 2 ^ (off + w) := by
    have h1 : x % 2 ^ off < 2 ^ off := Nat.mod_lt x hA
    have h2 : v % 2 ^ w * 2 ^ off ≤ (2 ^ w - 1) * 2 ^ off :=
      Nat.mul_le_mul_right _ (Nat.le_pred_of_lt (Nat.mod_lt v hB))
    have h3 : 2 ^ off + (2 ^ w - 1) * 2 ^ off = 2 ^ (off + w) := by
      have h4 : 1 + (2 ^ w - 1) = 2 ^ w := by omega
      calc 2 ^ off + (2 ^ w - 1) * 2 ^ off = (1 + (2 ^ w - 1)) * 2 ^ off := by
            rw [Nat.add_mul, Nat.one_mul]
        _ = 2 ^ w * 2 ^ off := by rw [h4]
        _ = 2 ^ (off + w) := by rw [← pow_add, Nat.add_comm]
    calc x % 2 ^ off + v % 2 ^ w * 2 ^ off
        < 2 ^ off + v % 2 ^ w * 2 ^ off := Nat.add_lt_add_right h1 _
      _ ≤ 2 ^ off + (2 ^ w - 1) * 2 ^ off := Nat.add_le_add_left h2 _
      _ = 2 ^ (off + w) := h3
  unfold setField
  rw [Nat.mul_comm (x / 2 ^ (off + w)) (2 ^ (off + w)),
    Nat.add_mul_div_left _ _ (Nat.pos_pow_of_pos _ (by norm_num)),
    Nat.div_eq_of_lt hlow, Nat.zero_add]

theorem getField_setField_high (x off w v o2 w2 : Nat) (h : off + w ≤ o2) :
    getField (setField x off w v) o2 w2 = getField x o2 w2 := by
  unfold getField
  have e : (2 : Nat) ^ o2 = 2 ^ (off + w) * 2 ^ (o2 - (off + w)) := by
    rw [← pow_add]; congr 1; omega
  rw [e, ← Nat.div_div_eq_div_mul, ← Nat.div_div_eq_div_mul, setField_div_high]

theorem setField_zero_max (off w : Nat) :
    setField 0 off w (2 ^ w - 1) = (2 ^ w - 1) * 2 ^ off := by
  unfold setField
  have hB : 0 < 2 ^ w := Nat.pos_pow_of_pos _ (by norm_num)
  simp [Nat.mod_eq_of_lt (Nat.sub_lt hB Nat.one_pos)]

theorem posLE_off_le (L : List (String × Nat)) :
    ∀ acc p, p ∈ posLE L acc → acc ≤ p.2.1 := by
  induction L with
  | nil => intro acc p hp; simp [posLE] at hp
  | cons f rest ih =>
    intro acc p hp
    obtain ⟨n, w⟩ := f
    rcases List.mem_cons.mp hp with h | h
    · subst h; exact Nat.le_refl _
    · exact Nat.le_trans (Nat.le_add_right acc w) (ih (acc + w) p h)

theorem posLE_pairwise (L : List (String × Nat)) :
    ∀ acc, List.Pairwise (fun p q => p.2.1 + p.2.2 ≤ q.2.1) (posLE L acc) := by
  induction L with
  | nil => intro acc; simp [posLE]
  | cons f rest ih =>
    intro acc
    obtain ⟨n, w⟩ := f
    refine List.Pairwise.cons ?_ (ih (acc + w))
    intro q hq
    exact posLE_off_le rest (acc + w) q hq

theorem posLE_disjoint (L : List (String × Nat)) (p q : String × Nat × Nat)
    (hp : p ∈ posLE L 0) (hq : q ∈ posLE L 0) (hne : p ≠ q) :
    p.2.1 + p.2.2 ≤ q.2.1 ∨ q.2.1 + q.2.2 ≤ p.2.1 := by
  have hsym : Symmetric (fun p q : String × Nat × Nat =>
      p.2.1 + p.2.2 ≤ q.2.1 ∨ q.2.1 + q.2.2 ≤ p.2.1) := fun a b h => h.symm
  have hpw := (posLE_pairwise L 0).imp
    (fun h => Or.inl h :
      ∀ {a b : String × Nat × Nat}, (a.2.1 + a.2.2 ≤ b.2.1) →
        (a.2.1 + a.2.2 ≤ b.2.1 ∨ b.2.1 + b.2.2 ≤ a.2.1))
  exact hpw.forall hsym hp hq hne

/- Derived facts about the concrete layouts. -/

theorem overlay_pairs_spec :
    ∀ pr ∈ overlayLayoutsLE.zip overlayLayoutsBE,
      widthSum pr.1 = 32 ∧ pr.2 = pr.1.reverse := by
  decide

/- Claims. -/

/-- C1: the frame-format offset enumeration has exactly 7 entries, mapping the
frame-form word to 0x0, the identifier word to 0x4, the timestamp words to 0x8
and 0xc, and the three data words to 0x10, 0x14 and 0x4c. -/
theorem can_frame_format_offsets :
    ctu_can_fd_can_frame_format.length = 7 ∧
    ctu_can_fd_can_frame_format =
      [("CTU_CAN_FD_FRAME_FORM_W", 0x0), ("CTU_CAN_FD_IDENTIFIER_W", 0x4),
       ("CTU_CAN_FD_TIMESTAMP_L_W", 0x8), ("CTU_CAN_FD_TIMESTAMP_U_W", 0xc),
       ("CTU_CAN_FD_DATA_1_4_W", 0x10), ("CTU_CAN_FD_DATA_5_8_W", 0x14),
       ("CTU_CAN_FD_DATA_61_64_W", 0x4c)] :=
  ⟨rfl, rfl⟩

/-- C2: for each of the seven overlay unions, the declared bitfield widths sum
to exactly 32 bits under both the little-endian and the big-endian variant. -/
theorem overlay_width_sum_32 :
    ∀ L ∈ overlayLayoutsLE ++ overlayLayoutsBE, widthSum L = 32 := by
  decide

/-- Witness for C2 at the frame-form word layout. -/
theorem overlay_width_sum_32_witness :
    widthSum ctu_can_fd_frame_form_w_le = 32 :=
  overlay_width_sum_32 ctu_can_fd_frame_form_w_le (by decide)

/-- C3: for every overlay union, decoding a 32-bit word into its named fields
and re-encoding them yields the original word; the big-endian bitfield view
assigns every field the same value as the little-endian view of the same raw
word; and writing the maximum representable value into a field of a zero word
produces exactly that field's mask. -/
theorem raw_and_bitfield_views_agree :
    ∀ pr ∈ overlayLayoutsLE.zip overlayLayoutsBE,
      (∀ x, x < 2 ^ 32 → encodeLE (decodeLE pr.1 x) = x) ∧
      (∀ x, decodeBE pr.2 x = (decodeLE pr.1 x).reverse) ∧
      (∀ p ∈ posLE pr.1 0,
        setField 0 p.2.1 p.2.2 (2 ^ p.2.2 - 1) = (2 ^ p.2.2 - 1) * 2 ^ p.2.1) := by
  intro pr hmem
  obtain ⟨h32, hrev⟩ := overlay_pairs_spec pr hmem
  refine ⟨?_, ?_, ?_⟩
  · intro x hx
    rw [encodeLE_decodeLE, h32, Nat.mod_eq_of_lt hx]
  · intro x
    rw [hrev, decodeBE_reverse]
  · intro p hp
    exact setField_zero_max p.2.1 p.2.2

/-- Witness for C3 at the identifier word layout. -/
theorem raw_and_bitfield_views_agree_witness :
    (ctu_can_fd_identifier_w_le, ctu_can_fd_identifier_w_be)
        ∈ overlayLayoutsLE.zip overlayLayoutsBE ∧
    encodeLE (decodeLE ctu_can_fd_identifier_w_le 0xABCD1234) = 0xABCD1234 :=
  ⟨by decide,
   (raw_and_bitfield_views_agree (ctu_can_fd_identifier_w_le, ctu_can_fd_identifier_w_be)
     (by decide)).1 0xABCD1234 (by norm_num)⟩

/-- C4: under the little-endian variant the frame-form word decomposes from the
least significant bit upward into dlc(4), reserved(1), rtr(1), ide(1), fdf(1),
tbf(1), brs(1), esi_rsv(1), rwcnt(5) and 16 reserved bits, and the big-endian
variant declares the same fields in exactly reversed order. -/
theorem frame_form_w_layout :
    posLE ctu_can_fd_frame_form_w_le 0 =
      [("dlc", 0, 4), ("reserved_4", 4, 1), ("rtr", 5, 1), ("ide", 6, 1),
       ("fdf", 7, 1), ("tbf", 8, 1), ("brs", 9, 1), ("esi_rsv", 10, 1),
       ("rwcnt", 11, 5), ("reserved_31_16", 16, 16)] ∧
    ctu_can_fd_frame_form_w_be = ctu_can_fd_frame_form_w_le.reverse :=
  ⟨rfl, rfl⟩

/-- C5: under the little-endian variant the identifier word decomposes from the
least significant bit upward into identifier_ext(18), identifier_base(11) and
3 reserved bits, and the big-endian variant declares the same fields in
reversed order. -/
theorem identifier_w_layout :
    posLE ctu_can_fd_identifier_w_le 0 =
      [("identifier_ext", 0, 18), ("identifier_base", 18, 11),
       ("reserved_31_29", 29, 3)] ∧
    ctu_can_fd_identifier_w_be = ctu_can_fd_identifier_w_le.reverse :=
  ⟨rfl, rfl⟩

/-- C6: each of the three data-word overlays packs four 8-bit byte fields into
one 32-bit word, the lowest-numbered byte at the least significant byte under
the little-endian variant, and the big-endian variant is exactly reversed. -/
theorem data_words_layout :
    posLE ctu_can_fd_data_1_4_w_le 0 =
      [("data_1", 0, 8), ("data_2", 8, 8), ("data_3", 16, 8), ("data_4", 24, 8)] ∧
    posLE ctu_can_fd_data_5_8_w_le 0 =
      [("data_5", 0, 8), ("data_6", 8, 8), ("data_7", 16, 8), ("data_8", 24, 8)] ∧
    posLE ctu_can_fd_data_61_64_w_le 0 =
      [("data_61", 0, 8), ("data_62", 8, 8), ("data_63", 16, 8), ("data_64", 24, 8)] ∧
    ctu_can_fd_data_1_4_w_be = ctu_can_fd_data_1_4_w_le.reverse ∧
    ctu_can_fd_data_5_8_w_be = ctu_can_fd_data_5_8_w_le.reverse ∧
    ctu_can_fd_data_61_64_w_be = ctu_can_fd_data_61_64_w_le.reverse :=
  ⟨rfl, rfl, rfl, rfl, rfl, rfl⟩

/-- C7: each timestamp overlay declares a single 32-bit field occupying the
whole word (with no endianness conditional), so for every 32-bit value the
bitfield view equals the raw integer view under either allocation order. -/
theorem timestamp_words_layout :
    ctu_can_fd_timestamp_l_w_fields = [("time_stamp_31_0", 32)] ∧
    ctu_can_fd_timestamp_u_w_fields = [("timestamp_l_w", 32)] ∧
    (∀ x, x < 2 ^ 32 →
      decodeLE ctu_can_fd_timestamp_l_w_fields x = [("time_stamp_31_0", 32, x)] ∧
      decodeBE ctu_can_fd_timestamp_l_w_fields x = [("time_stamp_31_0", 32, x)] ∧
      decodeLE ctu_can_fd_timestamp_u_w_fields x = [("timestamp_l_w", 32, x)] ∧
      decodeBE ctu_can_fd_timestamp_u_w_fields x = [("timestamp_l_w", 32, x)]) := by
  refine ⟨rfl, rfl, ?_⟩
  intro x hx
  have hx2 : x % 4294967296 = x := Nat.mod_eq_of_lt (by simpa using hx)
  refine ⟨?_, ?_, ?_, ?_⟩ <;>
    simp [ctu_can_fd_timestamp_l_w_fields, ctu_can_fd_timestamp_u_w_fields,
      decodeLE, decodeBE, widthSum, Nat.mod_one, hx2]

/-- Witness for C7 at a concrete timestamp value. -/
theorem timestamp_words_layout_witness :
    (0xDEADBEEF : Nat) < 2 ^ 32 ∧
    decodeLE ctu_can_fd_timestamp_l_w_fields 0xDEADBEEF =
      [("time_stamp_31_0", 32, 0xDEADBEEF)] :=
  ⟨by norm_num, (timestamp_words_layout.2.2 0xDEADBEEF (by norm_num)).1⟩

/-- C8: there are exactly six flag enumerations for the frame-form word, each
with exactly two enumerators valued 0x0 and 0x1, and each corresponds to a
1-bit field of the little-endian frame-form layout. -/
theorem flag_enums_spec :
    flagEnums.length = 6 ∧
    ∀ fe ∈ flagEnums,
      fe.2.length = 2 ∧ fe.2.map Prod.snd = [0x0, 0x1] ∧
      (∀ v ∈ fe.2, v.2 < 2 ^ 1) ∧ (fe.1, 1) ∈ ctu_can_fd_frame_form_w_le := by
  exact ⟨rfl, by decide⟩

/-- Witness for C8 at the RTR flag enumeration. -/
theorem flag_enums_spec_witness :
    ("rtr", ctu_can_fd_frame_form_w_rtr) ∈ flagEnums ∧
    ctu_can_fd_frame_form_w_rtr.length = 2 :=
  ⟨by decide, (flag_enums_spec.2 ("rtr", ctu_can_fd_frame_form_w_rtr) (by decide)).1⟩

/-- C9: every offset in the frame-format enumeration is a multiple of 4, the
offsets strictly increase in declaration order, and the bytes-61-to-64 word
sits at 0x10 + 4 * 15 = 0x4c, consistent with a contiguous 4-bytes-per-word
payload starting at 0x10. -/
theorem offsets_aligned_increasing :
    (∀ p ∈ ctu_can_fd_can_frame_format, p.2 % 4 = 0) ∧
    List.Pairwise (fun p q => p.2 < q.2) ctu_can_fd_can_frame_format ∧
    CTU_CAN_FD_DATA_61_64_W = CTU_CAN_FD_DATA_1_4_W + 4 * 15 :=
  ⟨by decide, by decide, rfl⟩

/-- Witness for C9 at the bytes-61-to-64 data word. -/
theorem offsets_aligned_increasing_witness :
    ("CTU_CAN_FD_DATA_61_64_W", CTU_CAN_FD_DATA_61_64_W)
        ∈ ctu_can_fd_can_frame_format ∧
    CTU_CAN_FD_DATA_61_64_W % 4 = 0 :=
  ⟨by decide,
   offsets_aligned_increasing.1 ("CTU_CAN_FD_DATA_61_64_W", CTU_CAN_FD_DATA_61_64_W)
     (by decide)⟩

/-- C10: for every overlay union, writing a value into one named field of a
raw word stores the truncated value there and leaves every other named field
of the word (reserved fields included) unchanged. -/
theorem setField_frame_effect (L : List (String × Nat)) (_hL : L ∈ overlayLayoutsLE)
    (p q : String × Nat × Nat) (hp : p ∈ posLE L 0) (hq : q ∈ posLE L 0)
    (hne : p.1 ≠ q.1) (x v : Nat) :
    getField (setField x p.2.1 p.2.2 v) p.2.1 p.2.2 = v % 2 ^ p.2.2 ∧
    getField (setField x p.2.1 p.2.2 v) q.2.1 q.2.2 = getField x q.2.1 q.2.2 := by
  refine ⟨getField_setField_eq x p.2.1 p.2.2 v, ?_⟩
  have hne2 : p ≠ q := fun h => hne (by rw [h])
  rcases posLE_disjoint L p q hp hq hne2 with h | h
  · exact getField_setField_high x p.2.1 p.2.2 v q.2.1 q.2.2 h
  · exact getField_setField_low x p.2.1 p.2.2 v q.2.1 q.2.2 h

/-- Witness for C10: writing dlc in the frame-form word leaves rtr unchanged. -/
theorem setField_frame_effect_witness :
    getField (setField 0x12345678 0 4 9) 0 4 = 9 % 2 ^ 4 ∧
    getField (setField 0x12345678 0 4 9) 5 1 = getField 0x12345678 5 1 :=
  setField_frame_effect ctu_can_fd_frame_form_w_le (by decide)
    ("dlc", 0, 4) ("rtr", 5, 1) (by decide) (by decide) (by decide) 0x12345678 9
